import Mathlib

/-!
Shallow embedding of the DCS persistence and weather rotation engine
(`app/mission_time_updater.py`, `app/weather_rotator.py`, `app/time_reader.py`,
`app/main.py`).  Python strings are modelled as `String` / `List Char`;
Python integers as `Int` (arbitrary precision; Python's `%` with a positive
modulus agrees with Lean's `Int` `%`).  All text processing is implemented on
`List Char` by structural recursion so that every definition evaluates inside
the kernel.
-/

namespace DCS

/-- ASCII whitespace: the characters stripped by Python's `str.strip`, and the
ASCII part of the regex class `\s`.  (Unicode whitespace beyond ASCII is not
modelled; mission descriptor files are ASCII.) -/
def isWsChar (c : Char) : Bool :=
  c = ' ' || c = '\t' || c = '\n' || c = '\r' || c = '\x0b' || c = '\x0c'

/-- `startsWithL cs pat` holds when `pat` is an initial segment of `cs`. -/
def startsWithL : List Char → List Char → Bool
  | _, [] => true
  | [], _ :: _ => false
  | c :: cs, p :: ps => c = p && startsWithL cs ps

/-- `infixOfL pat l` holds when `pat` occurs as a contiguous run inside `l`;
this is Python's `pat in l` substring test. -/
def infixOfL (pat : List Char) : List Char → Bool
  | [] => startsWithL [] pat
  | c :: t => startsWithL (c :: t) pat || infixOfL pat t

/-- Python's `pat in s` substring test on strings. -/
def strContains (s pat : String) : Bool := infixOfL pat.data s.data

/-- Python's `str.strip()` on a character list (ASCII whitespace). -/
def trimL (cs : List Char) : List Char :=
  ((cs.dropWhile isWsChar).reverse.dropWhile isWsChar).reverse

/-- Helper for `splitOnCharL`: accumulates the current chunk in reverse. -/
def splitOnCharAux (sep : Char) : List Char → List Char → List (List Char)
  | [], acc => [acc.reverse]
  | c :: t, acc =>
    if c = sep then acc.reverse :: splitOnCharAux sep t []
    else splitOnCharAux sep t (c :: acc)

/-- Python's `str.split(sep)` for a one-character separator `sep`
(all separators used by the engine — `"="`, `","`, `":"` — are one character).
Always returns at least one chunk, like Python. -/
def splitOnCharL (sep : Char) (cs : List Char) : List (List Char) :=
  splitOnCharAux sep cs []

/-- Helper for `splitlines`: accumulates the current line in reverse.
Python's `str.splitlines()` restricted to the line boundaries `\n`, `\r\n`
and `\r` (the exotic Unicode boundaries are not modelled); a trailing
terminator does not produce a final empty line. -/
def splitlinesAux : List Char → List Char → List String
  | [], acc => if acc.isEmpty then [] else [String.mk acc.reverse]
  | '\r' :: '\n' :: rest, acc => String.mk acc.reverse :: splitlinesAux rest []
  | '\r' :: rest, acc => String.mk acc.reverse :: splitlinesAux rest []
  | '\n' :: rest, acc => String.mk acc.reverse :: splitlinesAux rest []
  | c :: rest, acc => splitlinesAux rest (c :: acc)

/-- Python's `text.splitlines()` (see `splitlinesAux`). -/
def splitlines (text : String) : List String := splitlinesAux text.data []

/-- `"\n".join(lines)` as a character list. -/
def joinNL : List String → List Char
  | [] => []
  | [l] => l.data
  | l :: ls => l.data ++ '\n' :: joinNL ls

/-- Digits of a Python integer literal after the first digit: decimal digits
with single underscores allowed between digits (`int("5_0") = 50`). -/
def pyDigitsAux : List Char → Nat → Option Nat
  | [], acc => some acc
  | '_' :: c :: rest, acc =>
    if c.isDigit then pyDigitsAux rest (acc * 10 + (c.toNat - 48)) else none
  | c :: rest, acc =>
    if c.isDigit then pyDigitsAux rest (acc * 10 + (c.toNat - 48)) else none

/-- A nonempty run of decimal digits with single internal underscores. -/
def pyDigits? : List Char → Option Nat
  | [] => none
  | c :: rest => if c.isDigit then pyDigitsAux rest (c.toNat - 48) else none

/-- The sign-and-digits part of Python's `int(str)`. -/
def pyIntOfChars : List Char → Option Int
  | '-' :: rest =>
    match pyDigits? rest with
    | some n => some (-(n : Int))
    | none => none
  | '+' :: rest =>
    match pyDigits? rest with
    | some n => some (n : Int)
    | none => none
  | cs =>
    match pyDigits? cs with
    | some n => some (n : Int)
    | none => none

/-- Python's `int(s)` on a character list: strip whitespace, then an optional
sign and digits.  (Unicode digits are not modelled.)  `none` models the
`ValueError` that the Python callers catch. -/
def pyIntL (cs : List Char) : Option Int := pyIntOfChars (trimL cs)

/-! ## `app/mission_time_updater.py` — start_time parsing and replacement -/

/-- `MAX_TIME` from `mission_time_updater.py`: the last second in 24h. -/
def MAX_TIME : Int := 86399

/-- The line test of `_parse_start_time` / `_replace_start_time`:
`'"start_time"' in line or '["start_time"]' in line` (the second disjunct is
subsumed by the first but is kept from the source). -/
def matchesStartTime (line : String) : Bool :=
  strContains line "\"start_time\"" || strContains line "[\"start_time\"]"

/-- The per-line value extraction of `_parse_start_time`:
`int(line.strip().split("=")[1].split(",")[0].strip())`, with `none` modelling
the exception that the source swallows (`except Exception: pass`). -/
def parseStartTimeLine (line : String) : Option Int :=
  match splitOnCharL '=' (trimL line.data) with
  | _ :: p1 :: _ => pyIntL ((splitOnCharL ',' p1).headD [])
  | _ => none

/-- The loop body of `_parse_start_time`: keep the previously parsed value
unless the current line matches and parses. -/
def parseFold (acc : Option Int) (line : String) : Option Int :=
  if matchesStartTime line then
    match parseStartTimeLine line with
    | some v => some v
    | none => acc
  else acc

/-- `_parse_start_time(text)`: the value of the last matching line that parses
successfully, or `none` (the source then fails with "No start_time found"). -/
def parse_start_time (text : String) : Option Int :=
  (splitlines text).foldl parseFold none

/-- Structural description of `parse_start_time`: the value of the last
matching-and-parsable line, searched from the tail. -/
def lastParsedValue : List String → Option Int
  | [] => none
  | l :: ls =>
    match lastParsedValue ls with
    | some v => some v
    | none => if matchesStartTime l then parseStartTimeLine l else none

/-- The loop body of `_replace_start_time`'s index scan (`enumerate` state:
current best index, current position). -/
def lastIdxStep (acc : Option Nat × Nat) (line : String) : Option Nat × Nat :=
  (if matchesStartTime line then some acc.2 else acc.1, acc.2 + 1)

/-- The `last_index` computed by `_replace_start_time`: the index of the last
line containing the start_time marker. -/
def lastStartTimeIdx (lines : List String) : Option Nat :=
  (lines.foldl lastIdxStep (none, 0)).1

/-- Structural description of `lastStartTimeIdx`. -/
def lastIdxStruct : List String → Option Nat
  | [] => none
  | l :: ls =>
    match lastIdxStruct ls with
    | some i => some (i + 1)
    | none => if matchesStartTime l then some 0 else none

/-- The canonical single-line form written by `_replace_start_time`:
`f'\t["start_time"] = {new_value},'`. -/
def canonicalStartTimeLine (newValue : Int) : String :=
  "\t[\"start_time\"] = " ++ toString newValue ++ ","

/-- The line-list transformation of `_replace_start_time`: rewrite the line at
`last_index` (if any) to the canonical form. -/
def replace_start_time_lines (lines : List String) (newValue : Int) : List String :=
  match lastStartTimeIdx lines with
  | none => lines
  | some i => lines.set i (canonicalStartTimeLine newValue)

/-- `_replace_start_time(text, new_value)`: split into lines, rewrite the last
matching line, rejoin with `"\n"`. -/
def replace_start_time (text : String) (newValue : Int) : String :=
  String.mk (joinNL (replace_start_time_lines (splitlines text) newValue))

/-- The wrap-around arithmetic of `update_miz_start_time`:
`new_time = (current_start + seconds_to_add) % (MAX_TIME + 1)`. -/
def compute_new_start_time (current secondsToAdd : Int) : Int :=
  (current + secondsToAdd) % (MAX_TIME + 1)

/-- The pure text-transforming core of `update_miz_start_time`
(lines 213–224 of `mission_time_updater.py`): parse the authoritative current
value, fail if absent, otherwise rewrite the last matching line with the
wrapped new value. -/
def update_start_time_text (text : String) (secondsToAdd : Int) : Option String :=
  match parse_start_time text with
  | none => none
  | some cur => some (replace_start_time text (compute_new_start_time cur secondsToAdd))

/-! ### Lemmas about the start_time scan -/

lemma foldl_lastIdxStep (ls : List String) : ∀ (a : Option Nat) (k : Nat),
    (ls.foldl lastIdxStep (a, k)).1 =
      (match lastIdxStruct ls with
       | some i => some (k + i)
       | none => a) := by
  induction ls with
  | nil => intro a k; rfl
  | cons l t ih =>
    intro a k
    show (t.foldl lastIdxStep (lastIdxStep (a, k) l)).1 = _
    have hstep : lastIdxStep (a, k) l = (if matchesStartTime l then some k else a, k + 1) := rfl
    rw [hstep, ih]
    cases hs : lastIdxStruct t with
    | some i =>
      simp only [lastIdxStruct, hs]
      have : k + 1 + i = k + (i + 1) := by omega
      rw [this]
    | none =>
      cases hm : matchesStartTime l <;> simp [lastIdxStruct, hs, hm]

lemma lastStartTimeIdx_eq (ls : List String) : lastStartTimeIdx ls = lastIdxStruct ls := by
  unfold lastStartTimeIdx
  rw [foldl_lastIdxStep]
  cases hs : lastIdxStruct ls <;> simp

lemma lastIdxStruct_lt : ∀ {ls : List String} {i : Nat},
    lastIdxStruct ls = some i → i < ls.length := by
  intro ls
  induction ls with
  | nil => intro i h; simp [lastIdxStruct] at h
  | cons l t ih =>
    intro i h
    unfold lastIdxStruct at h
    cases hs : lastIdxStruct t with
    | some j =>
      rw [hs] at h
      simp only [Option.some.injEq] at h
      have := ih hs
      simp [← h, List.length_cons]
      omega
    | none =>
      rw [hs] at h
      by_cases hm : matchesStartTime l
      · simp [hm] at h
        simp [← h]
      · simp [hm] at h

lemma lastIdxStruct_matchesIdx : ∀ {ls : List String} {i : Nat},
    lastIdxStruct ls = some i → matchesStartTime (ls.getD i "") = true := by
  intro ls
  induction ls with
  | nil => intro i h; simp [lastIdxStruct] at h
  | cons l t ih =>
    intro i h
    unfold lastIdxStruct at h
    cases hs : lastIdxStruct t with
    | some j =>
      rw [hs] at h
      simp only [Option.some.injEq] at h
      subst h
      simpa using ih hs
    | none =>
      rw [hs] at h
      by_cases hm : matchesStartTime l
      · simp [hm] at h
        subst h
        simpa using hm
      · simp [hm] at h

lemma lastIdxStruct_none : ∀ {ls : List String},
    lastIdxStruct ls = none → ∀ l ∈ ls, matchesStartTime l = false := by
  intro ls
  induction ls with
  | nil => intro _ l hl; simp at hl
  | cons x t ih =>
    intro h l hl
    unfold lastIdxStruct at h
    cases hs : lastIdxStruct t with
    | some j => rw [hs] at h; simp at h
    | none =>
      rw [hs] at h
      by_cases hm : matchesStartTime x
      · simp [hm] at h
      · rcases List.mem_cons.mp hl with rfl | hl
        · simpa using hm
        · exact ih hs l hl

lemma getD_mem_of_lt : ∀ (ls : List String) (i : Nat), i < ls.length → ls.getD i "" ∈ ls := by
  intro ls
  induction ls with
  | nil => intro i h; simp at h
  | cons l t ih =>
    intro i h
    cases i with
    | zero => simp
    | succ i' =>
      simp only [List.getD_cons_succ]
      exact List.mem_cons_of_mem _ (ih i' (by simpa [List.length_cons] using h))

lemma lastIdxStruct_isLast : ∀ {ls : List String} {i : Nat},
    lastIdxStruct ls = some i → ∀ j, i < j → j < ls.length →
      matchesStartTime (ls.getD j "") = false := by
  intro ls
  induction ls with
  | nil => intro i h; simp [lastIdxStruct] at h
  | cons l t ih =>
    intro i h j hij hj
    unfold lastIdxStruct at h
    cases hs : lastIdxStruct t with
    | some k =>
      rw [hs] at h
      simp only [Option.some.injEq] at h
      subst h
      cases j with
      | zero => omega
      | succ j' =>
        simp only [List.getD_cons_succ]
        exact ih hs j' (by omega) (by simpa [List.length_cons] using hj)
    | none =>
      rw [hs] at h
      by_cases hm : matchesStartTime l
      · simp [hm] at h
        subst h
        cases j with
        | zero => omega
        | succ j' =>
          simp only [List.getD_cons_succ]
          exact lastIdxStruct_none hs _
            (getD_mem_of_lt t j' (by simpa [List.length_cons] using hj))
      · simp [hm] at h

lemma getD_set_ne : ∀ (ls : List String) (i j : Nat) (x : String), j ≠ i →
    (ls.set i x).getD j "" = ls.getD j "" := by
  intro ls
  induction ls with
  | nil => intro i j x _; simp
  | cons l t ih =>
    intro i j x hne
    cases i with
    | zero =>
      cases j with
      | zero => omega
      | succ j' => simp
    | succ i' =>
      cases j with
      | zero => simp
      | succ j' => simpa using ih i' j' x (by omega)

lemma getD_set_self : ∀ (ls : List String) (i : Nat) (x : String), i < ls.length →
    (ls.set i x).getD i "" = x := by
  intro ls
  induction ls with
  | nil => intro i x h; simp at h
  | cons l t ih =>
    intro i x h
    cases i with
    | zero => simp
    | succ i' => simpa using ih i' x (by simpa [List.length_cons] using h)

lemma foldl_parseFold (ls : List String) : ∀ (a : Option Int),
    ls.foldl parseFold a =
      (match lastParsedValue ls with
       | some v => some v
       | none => a) := by
  induction ls with
  | nil => intro a; rfl
  | cons l t ih =>
    intro a
    show t.foldl parseFold (parseFold a l) = _
    rw [ih]
    cases hs : lastParsedValue t with
    | some v => simp [lastParsedValue, hs]
    | none =>
      simp only [lastParsedValue, hs]
      by_cases hm : matchesStartTime l
      · simp only [parseFold, hm, if_true]
      · simp [parseFold, hm]

lemma parse_eq_lastParsed (text : String) :
    parse_start_time text = lastParsedValue (splitlines text) := by
  unfold parse_start_time
  rw [foldl_parseFold]
  cases hs : lastParsedValue (splitlines text) <;> simp

lemma lastParsedValue_none_iff : ∀ {ls : List String},
    lastParsedValue ls = none ↔
      ∀ l ∈ ls, matchesStartTime l = true → parseStartTimeLine l = none := by
  intro ls
  induction ls with
  | nil => simp [lastParsedValue]
  | cons x t ih =>
    constructor
    · intro h l hl hm
      unfold lastParsedValue at h
      cases hs : lastParsedValue t with
      | some v => rw [hs] at h; simp at h
      | none =>
        rw [hs] at h
        rcases List.mem_cons.mp hl with rfl | hl
        · simpa [hm] using h
        · exact ih.mp hs l hl hm
    · intro h
      unfold lastParsedValue
      have ht : lastParsedValue t = none :=
        ih.mpr (fun l hl hm => h l (List.mem_cons_of_mem _ hl) hm)
      rw [ht]
      by_cases hm : matchesStartTime x
      · simpa [hm] using h x (List.mem_cons_self _ _) hm
      · simp [hm]

lemma lastParsed_of_lastIdx : ∀ {ls : List String} {i : Nat} {v : Int},
    lastIdxStruct ls = some i → parseStartTimeLine (ls.getD i "") = some v →
      lastParsedValue ls = some v := by
  intro ls
  induction ls with
  | nil => intro i v h; simp [lastIdxStruct] at h
  | cons l t ih =>
    intro i v h hp
    unfold lastIdxStruct at h
    cases hs : lastIdxStruct t with
    | some j =>
      rw [hs] at h
      simp only [Option.some.injEq] at h
      subst h
      simp only [List.getD_cons_succ] at hp
      unfold lastParsedValue
      rw [ih hs hp]
    | none =>
      rw [hs] at h
      by_cases hm : matchesStartTime l
      · simp [hm] at h
        subst h
        simp only [List.getD_cons_zero] at hp
        have ht : lastParsedValue t = none :=
          lastParsedValue_none_iff.mpr
            (fun l' hl' hm' => by
              have := lastIdxStruct_none hs l' hl'
              rw [this] at hm'
              exact absurd hm' (by simp))
        unfold lastParsedValue
        rw [ht, if_pos hm, hp]
      · simp [hm] at h

/-! ### Claims C1–C3 -/

/-- C1: for every descriptor text whose last start_time occurrence has parsed
value `v` (`0 ≤ v ≤ 86399`) and every delta `d ≥ 0` supplied to the start_time
update, the new value written is exactly `(v + d) % 86400`, which always lies
in `[0, 86399]`, even when `d` exceeds 86399. -/
theorem start_time_wraps (text : String) (d v : Int)
    (hv : parse_start_time text = some v) (h0 : 0 ≤ v) (h1 : v ≤ 86399) (hd : 0 ≤ d) :
    update_start_time_text text d = some (replace_start_time text ((v + d) % 86400)) ∧
    0 ≤ (v + d) % 86400 ∧ (v + d) % 86400 ≤ 86399 := by
  refine ⟨?_, ?_, ?_⟩
  · unfold update_start_time_text
    rw [hv]
    unfold compute_new_start_time MAX_TIME
    norm_num
  · exact Int.emod_nonneg _ (by norm_num)
  · have := Int.emod_lt_of_pos (v + d) (show (0:Int) < 86400 by norm_num)
    omega

/-- Witness for `start_time_wraps`: end-to-end scenario A — the last
start_time line holds 36000, delta 90000, new value `(36000+90000) % 86400 =
39600`. -/
theorem start_time_wraps_witness :
    update_start_time_text "a\n[\"start_time\"] = 100,\nb\n\t[\"start_time\"] = 36000,\nc" 90000
      = some (replace_start_time "a\n[\"start_time\"] = 100,\nb\n\t[\"start_time\"] = 36000,\nc"
          ((36000 + 90000) % 86400)) ∧
    0 ≤ ((36000 : Int) + 90000) % 86400 ∧ ((36000 : Int) + 90000) % 86400 ≤ 86399 :=
  start_time_wraps _ 90000 36000 (by decide) (by decide) (by decide) (by decide)

/-- C2: when the descriptor's lines contain at least one start_time marker
(last occurrence at index `i`), the update rewrites only the line at `i` to
the canonical form; every other line is byte-identical before and after, and
`i` really is the last marker index. -/
theorem start_time_frame (text : String) (v : Int) (i : Nat)
    (h : lastStartTimeIdx (splitlines text) = some i) :
    (replace_start_time_lines (splitlines text) v).length = (splitlines text).length ∧
    (replace_start_time_lines (splitlines text) v).getD i "" = canonicalStartTimeLine v ∧
    (∀ j, j ≠ i →
      (replace_start_time_lines (splitlines text) v).getD j "" = (splitlines text).getD j "") ∧
    matchesStartTime ((splitlines text).getD i "") = true ∧
    (∀ j, i < j → j < (splitlines text).length →
      matchesStartTime ((splitlines text).getD j "") = false) ∧
    replace_start_time text v = String.mk (joinNL (replace_start_time_lines (splitlines text) v)) := by
  have hs : lastIdxStruct (splitlines text) = some i := by
    rw [← lastStartTimeIdx_eq]; exact h
  have hlt : i < (splitlines text).length := lastIdxStruct_lt hs
  have hrepl : replace_start_time_lines (splitlines text) v
      = (splitlines text).set i (canonicalStartTimeLine v) := by
    unfold replace_start_time_lines
    rw [h]
  refine ⟨?_, ?_, ?_, ?_, ?_, rfl⟩
  · rw [hrepl, List.length_set]
  · rw [hrepl]; exact getD_set_self _ i _ hlt
  · intro j hj; rw [hrepl]; exact getD_set_ne _ i j _ hj
  · exact lastIdxStruct_matchesIdx hs
  · exact lastIdxStruct_isLast hs

/-- Witness for `start_time_frame` on a two-marker descriptor: only line 3 is
rewritten, lines keep their count. -/
theorem start_time_frame_witness :
    (replace_start_time_lines
        (splitlines "x\n[\"start_time\"] = 1,\ny\n[\"start_time\"] = 2,") 5).length
      = (splitlines "x\n[\"start_time\"] = 1,\ny\n[\"start_time\"] = 2,").length ∧
    (replace_start_time_lines
        (splitlines "x\n[\"start_time\"] = 1,\ny\n[\"start_time\"] = 2,") 5).getD 3 ""
      = canonicalStartTimeLine 5 :=
  ⟨(start_time_frame "x\n[\"start_time\"] = 1,\ny\n[\"start_time\"] = 2," 5 3 (by decide)).1,
   (start_time_frame "x\n[\"start_time\"] = 1,\ny\n[\"start_time\"] = 2," 5 3 (by decide)).2.1⟩

/-- C3 counterexample: in the two-line descriptor below, the last marker line
(index 1) does not parse, yet the update does not fail — the authoritative
value 100 comes from the earlier line, not from the rewritten line; and in a
descriptor whose only marker line is unparsable, the update fails even though
a line matches the marker.  So the authoritative value is not "the integer
parsed from the line at the last marker index", and failure is not "exactly
when no line matches the marker". -/
theorem start_time_authority_counterexample :
    lastStartTimeIdx (splitlines "[\"start_time\"] = 100,\n[\"start_time\"] = oops,") = some 1 ∧
    parse_start_time "[\"start_time\"] = 100,\n[\"start_time\"] = oops," = some 100 ∧
    parseStartTimeLine
        ((splitlines "[\"start_time\"] = 100,\n[\"start_time\"] = oops,").getD 1 "") = none ∧
    matchesStartTime "[\"start_time\"] = oops," = true ∧
    parse_start_time "[\"start_time\"] = oops," = none :=
  ⟨by decide, by decide, by decide, by decide, by decide⟩

/-- C3 amended: the authoritative current value is the value of the last
marker line that parses successfully; when the last marker line itself parses,
its value is the authoritative one (so the value's line and the rewritten line
coincide); and the update fails with FieldNotFound exactly when no marker line
yields a parsable integer. -/
theorem start_time_authority (text : String) (i : Nat) (v : Int) (d : Int) :
    parse_start_time text = lastParsedValue (splitlines text) ∧
    (lastStartTimeIdx (splitlines text) = some i →
      parseStartTimeLine ((splitlines text).getD i "") = some v →
      parse_start_time text = some v) ∧
    (parse_start_time text = none ↔
      ∀ l ∈ splitlines text, matchesStartTime l = true → parseStartTimeLine l = none) ∧
    (update_start_time_text text d = none ↔ parse_start_time text = none) := by
  refine ⟨parse_eq_lastParsed text, ?_, ?_, ?_⟩
  · intro h hp
    rw [parse_eq_lastParsed]
    exact lastParsed_of_lastIdx (by rw [← lastStartTimeIdx_eq]; exact h) hp
  · rw [parse_eq_lastParsed]
    exact lastParsedValue_none_iff
  · unfold update_start_time_text
    cases hp : parse_start_time text <;> simp

/-- Witness for `start_time_authority`: a descriptor whose last marker line
parses — the parsed value is authoritative. -/
theorem start_time_authority_witness :
    parse_start_time "q\n[\"start_time\"] = 5," = some 5 :=
  (start_time_authority "q\n[\"start_time\"] = 5," 1 5 0).2.1 (by decide) (by decide)

/-! ## `app/weather_rotator.py` — season dates and weather template choice -/

/-- `_build_date_for_season(season)`, returning `(year, month, day)`.
The real current date (`date.today()`) is passed in as `today`, so the
"realistic" branch is the only one that can depend on it. -/
def build_date_for_season (season : String) (today : Int × Int × Int) : Int × Int × Int :=
  if season = "realistic" then today
  else if season = "summer" then (2025, 8, 1)
  else if season = "winter" then (2025, 2, 1)
  else if season = "autumn" then (2025, 10, 1)
  else if season = "spring" then (2025, 5, 1)
  else (2025, 9, 1)

/-- C4: each named season maps to its fixed year-2025 date, and any
unrecognized tag falls back to 1 September 2025, independent of the real
current date (`today` is universally quantified). -/
theorem season_dates (today : Int × Int × Int) (tag : String) :
    build_date_for_season "winter" today = (2025, 2, 1) ∧
    build_date_for_season "summer" today = (2025, 8, 1) ∧
    build_date_for_season "autumn" today = (2025, 10, 1) ∧
    build_date_for_season "spring" today = (2025, 5, 1) ∧
    build_date_for_season "bogus" today = (2025, 9, 1) ∧
    (tag ≠ "realistic" → tag ≠ "summer" → tag ≠ "winter" → tag ≠ "autumn" →
      tag ≠ "spring" → build_date_for_season tag today = (2025, 9, 1)) := by
  refine ⟨by simp [build_date_for_season], by simp [build_date_for_season],
    by simp [build_date_for_season], by simp [build_date_for_season],
    by simp [build_date_for_season], ?_⟩
  intro h1 h2 h3 h4 h5
  simp [build_date_for_season, h1, h2, h3, h4, h5]

/-- Witness for `season_dates` at a concrete "real current date" and the
unrecognized tag "anything". -/
theorem season_dates_witness :
    build_date_for_season "winter" (1999, 12, 31) = (2025, 2, 1) ∧
    build_date_for_season "anything" (1999, 12, 31) = (2025, 9, 1) :=
  ⟨(season_dates (1999, 12, 31) "anything").1,
   (season_dates (1999, 12, 31) "anything").2.2.2.2.2
     (by decide) (by decide) (by decide) (by decide) (by decide)⟩

/-- The clamping of `bad_percentage` at the top of `_pick_weather_template`. -/
def clampPct (p : Int) : Int :=
  if p < 0 then 0 else if p > 100 then 100 else p

/-- Selection from one pool directory in `_pick_weather_template`:
`none` models a missing directory; an empty file list models "no .config
files"; otherwise `random.choice` is modelled by an arbitrary index reduced
modulo the pool size, and `readOk = false` models a failing template read. -/
def pickFromPool (pool : Option (List String)) (pickIdx : Nat) (readOk : Bool) : Option String :=
  match pool with
  | none => none
  | some files =>
    if files.isEmpty then none
    else if readOk then some (files.getD (pickIdx % files.length) "") else none

/-- `_pick_weather_template(bad_percentage)`: clamp the weight to `[0,100]`,
draw `roll = random.randint(1, 100)` (passed in), select the bad pool iff
`roll ≤ weight`, else the good pool. -/
def pick_weather_template (badPct : Int) (roll : Nat)
    (badPool goodPool : Option (List String)) (pickIdx : Nat) (readOk : Bool) : Option String :=
  if (roll : Int) ≤ clampPct badPct then pickFromPool badPool pickIdx readOk
  else pickFromPool goodPool pickIdx readOk

/-- C5: the weight is clamped to `[0,100]`; for every draw `r ∈ [1,100]` the
bad pool is selected iff `r ≤ clamped weight`; weight 0 (or any non-positive
weight) always selects the good pool, and weight 100 (or larger) always
selects the bad pool. -/
theorem weather_weight_choice (badPct : Int) (roll : Nat)
    (badPool goodPool : Option (List String)) (pickIdx : Nat) (readOk : Bool)
    (h1 : 1 ≤ roll) (h100 : roll ≤ 100) :
    (0 ≤ clampPct badPct ∧ clampPct badPct ≤ 100) ∧
    ((0 ≤ badPct ∧ badPct ≤ 100) → clampPct badPct = badPct) ∧
    pick_weather_template badPct roll badPool goodPool pickIdx readOk
      = (if (roll : Int) ≤ clampPct badPct then pickFromPool badPool pickIdx readOk
         else pickFromPool goodPool pickIdx readOk) ∧
    (badPct ≤ 0 →
      pick_weather_template badPct roll badPool goodPool pickIdx readOk
        = pickFromPool goodPool pickIdx readOk) ∧
    (100 ≤ badPct →
      pick_weather_template badPct roll badPool goodPool pickIdx readOk
        = pickFromPool badPool pickIdx readOk) := by
  have hcl : 0 ≤ clampPct badPct ∧ clampPct badPct ≤ 100 := by
    unfold clampPct
    split <;> [omega; (split <;> omega)]
  refine ⟨hcl, ?_, rfl, ?_, ?_⟩
  · intro h
    unfold clampPct
    split <;> [omega; (split <;> omega)]
  · intro h
    have hz : clampPct badPct ≤ 0 := by
      unfold clampPct
      split <;> [omega; (split <;> omega)]
    unfold pick_weather_template
    rw [if_neg (by omega)]
  · intro h
    have hz : clampPct badPct = 100 := by
      unfold clampPct
      split <;> [omega; (split <;> omega)]
    unfold pick_weather_template
    rw [if_pos (by rw [hz]; omega)]

/-- Witness for `weather_weight_choice`: with weight 0 and any draw the good
pool is used, with weight 100 the bad pool is used. -/
theorem weather_weight_choice_witness :
    pick_weather_template 0 1 (some ["storm.config"]) (some ["clear.config"]) 0 true
      = pickFromPool (some ["clear.config"]) 0 true ∧
    pick_weather_template 100 100 (some ["storm.config"]) (some ["clear.config"]) 0 true
      = pickFromPool (some ["storm.config"]) 0 true :=
  ⟨(weather_weight_choice 0 1 (some ["storm.config"]) (some ["clear.config"]) 0 true
      (by decide) (by decide)).2.2.2.1 (by decide),
   (weather_weight_choice 100 100 (some ["storm.config"]) (some ["clear.config"]) 0 true
      (by decide) (by decide)).2.2.2.2 (by decide)⟩

/-! ## `app/weather_rotator.py` — the date block replacement

The Python source matches the date block with the regex
`\s*\["date"\]\s*=\s*\{.*?\},\s*(?:--\s*end of \["date"\])?` (DOTALL) and
replaces the leftmost match (`count = 1`).  Because every quantifier in the
pattern is followed by a character that the quantified class cannot produce
(`["date"]`, `=`, `\x7b` are not whitespace, the lazy `.*?` stops at the first
`\x7d,`, and the end comment starts with a dash), the backtracking search is
equivalent to the deterministic scanner below, which is how it is embedded. -/

/-- The characters of the literal `["date"]`. -/
def dateLabel : List Char := ['[', '"', 'd', 'a', 't', 'e', '"', ']']

/-- The characters of the end-marker literal that follows `--` in the
optional trailing comment. -/
def dateEndLit : List Char := "end of [\"date\"]".data

/-- The lazy `.*?\},` part: drop everything up to and including the first
occurrence of `\x7d,`; `none` if there is none. -/
def dropToAfterBraceComma : List Char → Option (List Char)
  | c :: c' :: rest =>
    if c = '\x7d' && c' = ',' then some rest
    else dropToAfterBraceComma (c' :: rest)
  | _ => none

/-- The trailing `\s*(?:--\s*end of \["date"\])?` part: greedily consume
whitespace, then the end-marker comment if it is present. -/
def consumeDateTail (cs : List Char) : List Char :=
  let cs7 := cs.dropWhile isWsChar
  if startsWithL cs7 ['-', '-'] then
    let q := (cs7.drop 2).dropWhile isWsChar
    if startsWithL q dateEndLit then q.drop dateEndLit.length else cs7
  else cs7

/-- Attempt to match the date-block pattern at the current position; returns
the remainder of the text after the match. -/
def tryMatchDateAt (cs : List Char) : Option (List Char) :=
  let cs1 := cs.dropWhile isWsChar
  if startsWithL cs1 dateLabel then
    match (cs1.drop dateLabel.length).dropWhile isWsChar with
    | '=' :: cs3 =>
      match cs3.dropWhile isWsChar with
      | '\x7b' :: cs5 =>
        match dropToAfterBraceComma cs5 with
        | some cs6 => some (consumeDateTail cs6)
        | none => none
      | _ => none
    | _ => none
  else none

/-- `re.search` / `re.sub(count=1)` splitting: scan left to right for the
first position where the pattern matches, returning the text before the match
and the text after it. -/
def findDateSplit (acc cs : List Char) : Option (List Char × List Char) :=
  match tryMatchDateAt cs with
  | some rest => some (acc.reverse, rest)
  | none =>
    match cs with
    | [] => none
    | c :: cs' => findDateSplit (c :: acc) cs'

/-- The canonical replacement block built by `_update_date_block`
(`new_block` in the source, with `\x7b`/`\x7d` braces). -/
def canonicalDateBlock (year month day : Int) : String :=
  "\t[\"date\"] = \n\t\x7b\n\t\t[\"Day\"] = " ++ toString day ++
  ",\n\t\t[\"Year\"] = " ++ toString year ++
  ",\n\t\t[\"Month\"] = " ++ toString month ++
  ",\n\t\x7d, -- end of [\"date\"]\n"

/-- `_update_date_block(text, season)`: fail (`BlockNotFound`, i.e. `None`)
when the pattern does not match; otherwise replace the leftmost match with
the canonical block for the season's date.  `today` stands for the real
current date used by the "realistic" season. -/
def update_date_block (text season : String) (today : Int × Int × Int) : Option String :=
  match findDateSplit [] text.data with
  | none => none
  | some (pre, post) =>
    some (String.mk pre ++
      canonicalDateBlock (build_date_for_season season today).1
        (build_date_for_season season today).2.1
        (build_date_for_season season today).2.2 ++
      String.mk post)

/-! ### List lemmas for the scanner proofs -/

lemma dropWhile_all_append (p : Char → Bool) :
    ∀ (w xs : List Char), (∀ c ∈ w, p c = true) →
      (w ++ xs).dropWhile p = xs.dropWhile p := by
  intro w
  induction w with
  | nil => intro xs _; rfl
  | cons a w' ih =>
    intro xs h
    have ha : p a = true := h a (List.mem_cons_self _ _)
    simp only [List.cons_append, List.dropWhile_cons, ha, if_true]
    exact ih xs (fun c hc => h c (List.mem_cons_of_mem _ hc))

lemma dropWhile_append_left_ne (p : Char → Bool) :
    ∀ (l t : List Char), l.dropWhile p ≠ [] →
      (l ++ t).dropWhile p = l.dropWhile p ++ t := by
  intro l
  induction l with
  | nil => intro t h; simp at h
  | cons a l' ih =>
    intro t h
    by_cases ha : p a
    · simp only [List.dropWhile_cons, ha, if_true] at h
      simp only [List.cons_append, List.dropWhile_cons, ha, if_true]
      exact ih t h
    · simp only [List.dropWhile_cons, ha, if_false] at h ⊢
      simp [ha]

lemma dropWhile_nil_all (p : Char → Bool) :
    ∀ (l : List Char), l.dropWhile p = [] → ∀ c ∈ l, p c = true := by
  intro l
  induction l with
  | nil => intro _ c hc; simp at hc
  | cons a l' ih =>
    intro h c hc
    by_cases ha : p a
    · simp only [List.dropWhile_cons, ha, if_true] at h
      rcases List.mem_cons.mp hc with rfl | hc
      · simpa using ha
      · exact ih h c hc
    · simp [List.dropWhile_cons, ha] at h

lemma startsWithL_append_self : ∀ (l t : List Char), startsWithL (l ++ t) l = true := by
  intro l
  induction l with
  | nil => intro t; cases t <;> rfl
  | cons c l' ih => intro t; simp [startsWithL, ih]

lemma startsWithL_decomp : ∀ (pat cs : List Char),
    startsWithL cs pat = true → ∃ r, cs = pat ++ r := by
  intro pat
  induction pat with
  | nil => intro cs _; exact ⟨cs, rfl⟩
  | cons p ps ih =>
    intro cs h
    cases cs with
    | nil => simp [startsWithL] at h
    | cons c cs' =>
      simp only [startsWithL, Bool.and_eq_true, decide_eq_true_eq] at h
      obtain ⟨rfl, h2⟩ := h
      obtain ⟨r, hr⟩ := ih cs' h2
      exact ⟨r, by rw [hr]; rfl⟩

lemma infixOfL_of_startsWith (pat l : List Char) (h : startsWithL l pat = true) :
    infixOfL pat l = true := by
  cases l with
  | nil => simpa [infixOfL] using h
  | cons c t => simp [infixOfL, h]

lemma infixOfL_of_decomp : ∀ (u pat t : List Char), infixOfL pat (u ++ (pat ++ t)) = true := by
  intro u
  induction u with
  | nil =>
    intro pat t
    exact infixOfL_of_startsWith pat _ (startsWithL_append_self pat t)
  | cons a u' ih =>
    intro pat t
    simp [infixOfL, ih pat t]

lemma infixOfL_tail_false {pat : List Char} {c : Char} {t : List Char}
    (h : infixOfL pat (c :: t) = false) : infixOfL pat t = false := by
  simp only [infixOfL, Bool.or_eq_false_iff] at h
  exact h.2

lemma infixOfL_append_right_false {pat : List Char} :
    ∀ (u v : List Char), infixOfL pat (u ++ v) = false → infixOfL pat v = false := by
  intro u
  induction u with
  | nil => intro v h; simpa using h
  | cons a u' ih =>
    intro v h
    exact ih v (infixOfL_tail_false h)

lemma startsWithL_false_of_infix_false {pat l : List Char}
    (h : infixOfL pat l = false) : startsWithL l pat = false := by
  cases l with
  | nil => simpa [infixOfL] using h
  | cons c t =>
    simp only [infixOfL, Bool.or_eq_false_iff] at h
    exact h.1

lemma mem_of_getLast? : ∀ (l : List Char) (c : Char), l.getLast? = some c → c ∈ l := by
  intro l
  induction l with
  | nil => intro c h; simp at h
  | cons a t ih =>
    intro c h
    cases t with
    | nil => simp at h; simp [h]
    | cons b t' =>
      rw [List.getLast?_cons_cons] at h
      exact List.mem_cons_of_mem _ (ih c h)

lemma getLast?_append_right : ∀ (u s : List Char), s ≠ [] →
    (u ++ s).getLast? = s.getLast? := by
  intro u
  induction u with
  | nil => intro s _; rfl
  | cons a u' ih =>
    intro s hs
    have hne : u' ++ s ≠ [] := by
      intro h
      exact hs (List.append_eq_nil.mp h).2
    cases hmk : u' ++ s with
    | nil => exact absurd hmk hne
    | cons b t =>
      rw [List.cons_append, hmk, List.getLast?_cons_cons, ← hmk, ih s hs]

lemma take_append_le {n : Nat} (l t : List Char) (h : n ≤ l.length) :
    (l ++ t).take n = l.take n := by
  rw [List.take_append_eq_append_take]
  have : n - l.length = 0 := by omega
  rw [this]
  simp

lemma drop_append_le {n : Nat} (l t : List Char) (h : n ≤ l.length) :
    (l ++ t).drop n = l.drop n ++ t := by
  rw [List.drop_append_eq_append_drop]
  have : n - l.length = 0 := by omega
  rw [this]
  simp

lemma dateLabel_length : dateLabel.length = 8 := rfl

lemma dateLabel_not_ws : ∀ c ∈ dateLabel, isWsChar c = false := by decide

lemma dateLabel_aperiodic :
    ∀ k, k < 8 → 1 ≤ k → dateLabel.drop k ≠ dateLabel.take (8 - k) := by decide

/-! ### The date-block scanner: behaviour lemmas -/

lemma dropToAfterBraceComma_through : ∀ (body rest : List Char),
    infixOfL ['\x7d', ','] body = false →
    dropToAfterBraceComma (body ++ '\x7d' :: ',' :: rest) = some rest := by
  intro body
  induction body with
  | nil => intro rest _; simp [dropToAfterBraceComma]
  | cons c body' ih =>
    intro rest h
    cases body' with
    | nil =>
      show dropToAfterBraceComma (c :: '\x7d' :: ',' :: rest) = some rest
      by_cases hc : c = '\x7d'
      · subst hc
        simp [dropToAfterBraceComma]
      · simp [dropToAfterBraceComma, hc]
    | cons b bs =>
      have hcb : ¬(c = '\x7d' ∧ b = ',') := by
        rintro ⟨rfl, rfl⟩
        have : startsWithL ('\x7d' :: ',' :: bs) ['\x7d', ','] = true := by
          simp [startsWithL]
        rw [infixOfL_of_startsWith _ _ this] at h
        exact absurd h (by simp)
      have step : dropToAfterBraceComma ((c :: b :: bs) ++ '\x7d' :: ',' :: rest)
          = dropToAfterBraceComma ((b :: bs) ++ '\x7d' :: ',' :: rest) := by
        show dropToAfterBraceComma (c :: b :: (bs ++ '\x7d' :: ',' :: rest)) = _
        rw [dropToAfterBraceComma]
        have : (c = '\x7d' && b = ',') = false := by
          rcases Decidable.em (c = '\x7d') with hc | hc
          · rcases Decidable.em (b = ',') with hb | hb
            · exact absurd ⟨hc, hb⟩ hcb
            · simp [hb]
          · simp [hc]
        rw [this]
        rfl
      rw [step]
      exact ih rest (infixOfL_tail_false h)

lemma dropWhile_cons_neg {p : Char → Bool} {c : Char} (t : List Char) (h : p c = false) :
    (c :: t).dropWhile p = c :: t := by
  rw [List.dropWhile_cons, h]
  simp

lemma tryMatchDateAt_block (w1 w2 w3 body rest : List Char)
    (hw1 : ∀ c ∈ w1, isWsChar c = true) (hw2 : ∀ c ∈ w2, isWsChar c = true)
    (hw3 : ∀ c ∈ w3, isWsChar c = true)
    (hb : infixOfL ['\x7d', ','] body = false) :
    tryMatchDateAt
        (w1 ++ (dateLabel ++ (w2 ++ '=' :: (w3 ++ '\x7b' :: (body ++ '\x7d' :: ',' :: rest)))))
      = some (consumeDateTail rest) := by
  have h1 : (w1 ++ (dateLabel ++ (w2 ++ '=' :: (w3 ++ '\x7b' :: (body ++ '\x7d' :: ',' :: rest))))).dropWhile isWsChar
      = dateLabel ++ (w2 ++ '=' :: (w3 ++ '\x7b' :: (body ++ '\x7d' :: ',' :: rest))) := by
    rw [dropWhile_all_append _ w1 _ hw1]
    exact dropWhile_cons_neg _ (by decide)
  have h2 : List.dropWhile isWsChar (w2 ++ '=' :: (w3 ++ '\x7b' :: (body ++ '\x7d' :: ',' :: rest)))
      = '=' :: (w3 ++ '\x7b' :: (body ++ '\x7d' :: ',' :: rest)) := by
    rw [dropWhile_all_append _ w2 _ hw2]
    exact dropWhile_cons_neg _ (by decide)
  have h3 : List.dropWhile isWsChar (w3 ++ '\x7b' :: (body ++ '\x7d' :: ',' :: rest))
      = '\x7b' :: (body ++ '\x7d' :: ',' :: rest) := by
    rw [dropWhile_all_append _ w3 _ hw3]
    exact dropWhile_cons_neg _ (by decide)
  simp only [tryMatchDateAt, h1]
  rw [if_pos (startsWithL_append_self dateLabel _)]
  rw [List.drop_left, h2]
  show (match List.dropWhile isWsChar (w3 ++ '\x7b' :: (body ++ '\x7d' :: ',' :: rest)) with
    | '\x7b' :: cs5 =>
      match dropToAfterBraceComma cs5 with
      | some cs6 => some (consumeDateTail cs6)
      | none => none
    | _ => none) = some (consumeDateTail rest)
  rw [h3]
  show (match dropToAfterBraceComma (body ++ '\x7d' :: ',' :: rest) with
    | some cs6 => some (consumeDateTail cs6)
    | none => none) = some (consumeDateTail rest)
  rw [dropToAfterBraceComma_through body rest hb]

/-- No match can start inside text that ends in a non-whitespace character and
does not contain the date label: the leading `\s*` cannot carry the match
across the final non-whitespace character, and the label cannot be assembled
across the boundary because its characters are non-whitespace and it has no
nontrivial period. -/
lemma tryMatchDateAt_none_before (s w1 R' : List Char)
    (hne : s ≠ [])
    (hlast : ∀ c, s.getLast? = some c → isWsChar c = false)
    (hnl : infixOfL dateLabel s = false)
    (hw1 : ∀ c ∈ w1, isWsChar c = true) :
    tryMatchDateAt (s ++ (w1 ++ (dateLabel ++ R'))) = none := by
  have hs'ne : s.dropWhile isWsChar ≠ [] := by
    intro h0
    have hall := dropWhile_nil_all isWsChar s h0
    obtain ⟨c, hc⟩ : ∃ c, s.getLast? = some c := by
      cases s with
      | nil => exact absurd rfl hne
      | cons a t => exact ⟨(a :: t).getLast (by simp), List.getLast?_eq_getLast _ (by simp)⟩
    exact absurd (hall c (mem_of_getLast? s c hc)) (by simp [hlast c hc])
  have hd : (s ++ (w1 ++ (dateLabel ++ R'))).dropWhile isWsChar
      = s.dropWhile isWsChar ++ (w1 ++ (dateLabel ++ R')) :=
    dropWhile_append_left_ne isWsChar s _ hs'ne
  have hsw : startsWithL (s.dropWhile isWsChar ++ (w1 ++ (dateLabel ++ R'))) dateLabel = false := by
    set s' := s.dropWhile isWsChar with hs'
    by_contra hsw
    rw [Bool.not_eq_false] at hsw
    obtain ⟨r, hr⟩ := startsWithL_decomp dateLabel _ hsw
    have hk1 : 1 ≤ s'.length := by
      cases hmk : s' with
      | nil => exact absurd hmk hs'ne
      | cons a t => simp [hmk]
    rcases le_or_lt 8 s'.length with h8 | h8
    · -- the label would sit entirely inside `s`, contradicting `hnl`
      have htake : s'.take 8 = dateLabel := by
        have h' := congrArg (List.take 8) hr
        rw [take_append_le s' _ h8] at h'
        rw [take_append_le dateLabel r (by rw [dateLabel_length])] at h'
        rw [show dateLabel.take 8 = dateLabel from by decide] at h'
        exact h'
      obtain ⟨u, hu⟩ : ∃ u, s' = dateLabel ++ u := by
        refine ⟨s'.drop 8, ?_⟩
        conv_lhs => rw [← List.take_append_drop 8 s']
        rw [htake]
      have hs_decomp : s = s.takeWhile isWsChar ++ s' := by
        conv_lhs => rw [← List.takeWhile_append_dropWhile isWsChar s]
      have habs : infixOfL dateLabel s = true := by
        rw [hs_decomp, hu]
        exact infixOfL_of_decomp _ _ _
      rw [habs] at hnl
      exact absurd hnl (by simp)
    · -- the label would straddle the boundary: impossible
      have hdropped : w1 ++ (dateLabel ++ R') = dateLabel.drop s'.length ++ r := by
        have h' := congrArg (List.drop s'.length) hr
        rw [List.drop_left] at h'
        rw [drop_append_le dateLabel r (by rw [dateLabel_length]; omega)] at h'
        exact h'
      cases hw : w1 with
      | nil =>
        rw [hw, List.nil_append] at hdropped
        have hlendrop : (dateLabel.drop s'.length).length = 8 - s'.length := by
          rw [List.length_drop, dateLabel_length]
        have hper : dateLabel.take (8 - s'.length) = dateLabel.drop s'.length := by
          have h' := congrArg (List.take (8 - s'.length)) hdropped
          rw [take_append_le dateLabel R' (by rw [dateLabel_length]; omega)] at h'
          rw [take_append_le (dateLabel.drop s'.length) r (by rw [hlendrop])] at h'
          rw [show (8 - s'.length) = (dateLabel.drop s'.length).length from hlendrop.symm] at h'
          rw [List.take_length, hlendrop] at h'
          exact h'
        exact absurd hper.symm (dateLabel_aperiodic s'.length h8 hk1)
      | cons a w1' =>
        cases hdk : dateLabel.drop s'.length with
        | nil =>
          have h0 : (8 : Nat) - s'.length = 0 := by
            have h' := congrArg List.length hdk
            rw [List.length_drop, dateLabel_length] at h'
            simpa using h'
          omega
        | cons b bs =>
          rw [hw, hdk] at hdropped
          simp only [List.cons_append] at hdropped
          have hab : a = b := ((List.cons.injEq _ _ _ _).mp hdropped).1
          have hbmem : b ∈ dateLabel := by
            have hb' : b ∈ dateLabel.drop s'.length := by rw [hdk]; simp
            exact List.drop_subset _ _ hb'
          have hbws : isWsChar b = false := dateLabel_not_ws b hbmem
          have haws : isWsChar a = true := hw1 a (by rw [hw]; simp)
          rw [hab, hbws] at haws
          exact absurd haws (by simp)
  simp only [tryMatchDateAt, hd, hsw]
  simp

/-- Scanning skips over a region in which no suffix can start a match. -/
lemma findDateSplit_skip : ∀ (pre acc R : List Char),
    (∀ s, (∃ u, u ++ s = pre) → s ≠ [] → tryMatchDateAt (s ++ R) = none) →
    findDateSplit acc (pre ++ R) = findDateSplit (pre.reverse ++ acc) R := by
  intro pre
  induction pre with
  | nil => intro acc R _; simp
  | cons c pre' ih =>
    intro acc R h
    have h0 : tryMatchDateAt (c :: (pre' ++ R)) = none := by
      have h' := h (c :: pre') ⟨[], rfl⟩ (by simp)
      simpa using h'
    rw [List.cons_append, findDateSplit, h0]
    have := ih (c :: acc) R (fun s hs hne => by
      obtain ⟨u, hu⟩ := hs
      exact h s ⟨c :: u, by rw [← hu]; rfl⟩ hne)
    rw [this]
    simp

/-- The scan succeeds as soon as the pattern matches at the current position. -/
lemma findDateSplit_hit (acc cs : List Char) {r : List Char}
    (h : tryMatchDateAt cs = some r) :
    findDateSplit acc cs = some (acc.reverse, r) := by
  cases cs with
  | nil =>
    rw [show tryMatchDateAt [] = none from by decide] at h
    cases h
  | cons c cs' => rw [findDateSplit, h]

/-- A successful position match implies the label occurs in the text. -/
lemma tryMatchDateAt_some_label (cs : List Char) {r : List Char}
    (h : tryMatchDateAt cs = some r) : infixOfL dateLabel cs = true := by
  by_cases hsw : startsWithL (cs.dropWhile isWsChar) dateLabel = true
  · obtain ⟨r', hr'⟩ := startsWithL_decomp dateLabel _ hsw
    have hdc : cs = cs.takeWhile isWsChar ++ (dateLabel ++ r') := by
      conv_lhs => rw [← List.takeWhile_append_dropWhile isWsChar cs]
      rw [hr']
    rw [hdc]
    exact infixOfL_of_decomp _ _ _
  · rw [Bool.not_eq_true] at hsw
    rw [tryMatchDateAt] at h
    simp only [hsw] at h
    simp at h

/-- If the label occurs nowhere, the scan fails. -/
lemma findDateSplit_none : ∀ (cs acc : List Char),
    infixOfL dateLabel cs = false → findDateSplit acc cs = none := by
  intro cs
  induction cs with
  | nil =>
    intro acc _
    rw [findDateSplit]
    rw [show tryMatchDateAt [] = none from by decide]
  | cons c t ih =>
    intro acc h
    cases htm : tryMatchDateAt (c :: t) with
    | some r => rw [tryMatchDateAt_some_label _ htm] at h; exact absurd h (by simp)
    | none =>
      rw [findDateSplit, htm]
      exact ih (c :: acc) (infixOfL_tail_false h)

/-- C6 counterexample: the claim says the matched span runs "from the opening
label through the first closing `\x7d,`".  On `A ["date"] = \x7bZ\x7d, B`
that span would leave the spaces around the block intact and yield
`A ` ++ block ++ ` B`, but the regex also consumes the leading whitespace run
and the trailing whitespace, so the code produces `A` ++ block ++ `B`. -/
theorem date_block_span_counterexample :
    update_date_block "A [\"date\"] = \x7bZ\x7d, B" "winter" (2000, 1, 1)
      = some ("A" ++ canonicalDateBlock 2025 2 1 ++ "B") ∧
    ("A" ++ canonicalDateBlock 2025 2 1 ++ "B")
      ≠ ("A " ++ canonicalDateBlock 2025 2 1 ++ " B") := by
  constructor
  · decide
  · decide

/-- C6 amended: on any text of the form
`pre ++ ws ++ ["date"] ++ ws ++ = ++ ws ++ \x7b ++ body ++ \x7d, ++ rest`
(arbitrary internal field order and whitespace inside `body`, which merely may
not contain `\x7d,`), the replace substitutes the canonical season block for
the span running from the whitespace before the label through the first
`\x7d,` plus any immediately following whitespace and optional end-marker
comment (`consumeDateTail`); everything before and after — in particular any
later date-like substring in `rest` — is untouched; and if the label occurs
nowhere in a text, the replace fails (BlockNotFound). -/
theorem date_block_replace (pre w1 w2 w3 body rest : List Char) (season other : String)
    (today : Int × Int × Int)
    (hp1 : infixOfL dateLabel pre = false)
    (hp2 : ∀ c, pre.getLast? = some c → isWsChar c = false)
    (hw1 : ∀ c ∈ w1, isWsChar c = true) (hw2 : ∀ c ∈ w2, isWsChar c = true)
    (hw3 : ∀ c ∈ w3, isWsChar c = true)
    (hb : infixOfL ['\x7d', ','] body = false) :
    update_date_block
        (String.mk (pre ++ (w1 ++ (dateLabel ++
          (w2 ++ '=' :: (w3 ++ '\x7b' :: (body ++ '\x7d' :: ',' :: rest)))))))
        season today
      = some (String.mk pre ++
          canonicalDateBlock (build_date_for_season season today).1
            (build_date_for_season season today).2.1
            (build_date_for_season season today).2.2 ++
          String.mk (consumeDateTail rest)) ∧
    (infixOfL dateLabel other.data = false → update_date_block other season today = none) := by
  constructor
  · have hscan : findDateSplit []
        (pre ++ (w1 ++ (dateLabel ++ (w2 ++ '=' :: (w3 ++ '\x7b' :: (body ++ '\x7d' :: ',' :: rest))))))
        = findDateSplit pre.reverse
            (w1 ++ (dateLabel ++ (w2 ++ '=' :: (w3 ++ '\x7b' :: (body ++ '\x7d' :: ',' :: rest))))) := by
      have h' := findDateSplit_skip pre []
        (w1 ++ (dateLabel ++ (w2 ++ '=' :: (w3 ++ '\x7b' :: (body ++ '\x7d' :: ',' :: rest)))))
        (fun s hs hne => by
          obtain ⟨u, hu⟩ := hs
          refine tryMatchDateAt_none_before s w1 _ hne ?_ ?_ hw1
          · intro c hc
            refine hp2 c ?_
            rw [← hu, getLast?_append_right u s hne]
            exact hc
          · exact infixOfL_append_right_false u s (by rw [hu]; exact hp1))
      simpa using h'
    have hmatch := tryMatchDateAt_block w1 w2 w3 body rest hw1 hw2 hw3 hb
    unfold update_date_block
    rw [show (String.mk (pre ++ (w1 ++ (dateLabel ++
        (w2 ++ '=' :: (w3 ++ '\x7b' :: (body ++ '\x7d' :: ',' :: rest))))))).data
      = pre ++ (w1 ++ (dateLabel ++
        (w2 ++ '=' :: (w3 ++ '\x7b' :: (body ++ '\x7d' :: ',' :: rest))))) from rfl]
    rw [hscan, findDateSplit_hit _ _ hmatch]
    simp
  · intro h
    unfold update_date_block
    rw [findDateSplit_none other.data [] h]

/-- Witness for `date_block_replace`: a concrete block with permuted fields,
irregular whitespace and an end-marker comment in the tail. -/
theorem date_block_replace_witness :
    update_date_block
        (String.mk ("x".data ++ (" ".data ++ (dateLabel ++
          ("\n ".data ++ '=' :: (" \t".data ++ '\x7b' ::
            (" [\"Year\"] = 2011, [\"Day\"] = 3, [\"Month\"] = 7, ".data ++
              '\x7d' :: ',' :: " -- end of [\"date\"] tail".data)))))))
        "winter" (1999, 1, 1)
      = some (String.mk "x".data ++
          canonicalDateBlock (build_date_for_season "winter" (1999, 1, 1)).1
            (build_date_for_season "winter" (1999, 1, 1)).2.1
            (build_date_for_season "winter" (1999, 1, 1)).2.2 ++
          String.mk (consumeDateTail " -- end of [\"date\"] tail".data)) :=
  (date_block_replace "x".data " ".data "\n ".data " \t".data
      " [\"Year\"] = 2011, [\"Day\"] = 3, [\"Month\"] = 7, ".data
      " -- end of [\"date\"] tail".data "winter" "no label here" (1999, 1, 1)
      (by decide)
      (by intro c hc
          rw [show "x".data.getLast? = some 'x' from rfl] at hc
          injection hc with h
          rw [← h]
          decide)
      (by decide) (by decide) (by decide) (by decide)).1

/-! ## `app/weather_rotator.py` — the weather block replacement

`_replace_weather_block` uses the regex
`\["weather"\]\s*=\s*\{.*?\},\s*-- end of \["weather"\]` (DOTALL), replacing
the leftmost match.  As with the date block the pattern determinizes: the lazy
`.*?` stops at the first `\x7d,` that is followed (after whitespace) by the
mandatory end-marker comment. -/

/-- The characters of the literal `["weather"]`. -/
def weatherLabel : List Char := ['[', '"', 'w', 'e', 'a', 't', 'h', 'e', 'r', '"', ']']

/-- The mandatory end-marker comment of the weather block. -/
def weatherEndLit : List Char := "-- end of [\"weather\"]".data

/-- Scan for the first `\x7d,` that is followed, after whitespace, by the
end-marker comment; return the remainder after the comment. -/
def dropToWeatherEnd : List Char → Option (List Char)
  | c :: c' :: rest =>
    if c = '\x7d' && c' = ',' then
      let q := rest.dropWhile isWsChar
      if startsWithL q weatherEndLit then some (q.drop weatherEndLit.length)
      else dropToWeatherEnd (c' :: rest)
    else dropToWeatherEnd (c' :: rest)
  | _ => none

/-- Attempt to match the weather-block pattern at the current position
(no leading `\s*` in this pattern). -/
def tryMatchWeatherAt (cs : List Char) : Option (List Char) :=
  if startsWithL cs weatherLabel then
    match (cs.drop weatherLabel.length).dropWhile isWsChar with
    | '=' :: cs3 =>
      match cs3.dropWhile isWsChar with
      | '\x7b' :: cs5 => dropToWeatherEnd cs5
      | _ => none
    | _ => none
  else none

/-- Leftmost-match split for the weather pattern. -/
def findWeatherSplit (acc cs : List Char) : Option (List Char × List Char) :=
  match tryMatchWeatherAt cs with
  | some rest => some (acc.reverse, rest)
  | none =>
    match cs with
    | [] => none
    | c :: cs' => findWeatherSplit (c :: acc) cs'

/-- `_replace_weather_block(text, new_weather_block)`: replace the leftmost
weather block with the template text, `None` when absent. -/
def replace_weather_block (text tmpl : String) : Option String :=
  match findWeatherSplit [] text.data with
  | none => none
  | some (pre, post) => some (String.mk pre ++ tmpl ++ String.mk post)

/-! ## Process control and the two orchestrated workflows

The effectful steps of `update_miz_start_time` and `rotate_weather_in_miz`
are modelled by an explicit event trace over an abstract `World` describing
the environment: which processes run, how the external `7z` invocations exit,
whether file reads/writes and the process spawn succeed.  Logging is not
traced; Discord notifications, process scans, kills, the 15 s quiescence
sleep, `7z` invocations, descriptor reads/writes and the server spawn are. -/

inductive Ev where
  | procScan : Ev
  | notifyInfo : Ev
  | notifyError : Ev
  | killProc : Nat → Ev
  | sleep15 : Ev
  | sevenZipExtract : Ev
  | readMission : Ev
  | writeMission : String → Ev
  | sevenZipUpdate : Ev
  | spawnServer : Ev
  deriving DecidableEq, Repr

/-- Events that touch the server process (scan, kill, quiescence wait,
spawn). -/
def isProcessEv : Ev → Bool
  | .procScan => true
  | .killProc _ => true
  | .sleep15 => true
  | .spawnServer => true
  | _ => false

/-- `_kill_dcs_server_if_running()`: iterate over all processes; on the first
process whose name contains `"DCS_server.exe"` (Python `in`, a substring
test), notify, kill it (`killOk = false` models a raised exception, turned
into a local failure), sleep 15 s and succeed.  If none matches, succeed with
no kill, no sleep and no notification. -/
def kill_dcs_server_if_running (procs : List (Nat × String)) (killOk : Bool) :
    Bool × List Ev :=
  match procs.find? (fun p => strContains p.2 "DCS_server.exe") with
  | some (pid, _) =>
    if killOk then (true, [Ev.procScan, Ev.notifyInfo, Ev.killProc pid, Ev.sleep15])
    else (false, [Ev.procScan, Ev.notifyInfo, Ev.killProc pid, Ev.notifyError])
  | none => (true, [Ev.procScan])

/-- The abstract environment of one run. -/
structure World where
  mizExists : Bool
  procs : List (Nat × String)
  killOk : Bool
  extractExit : Int
  missionAppears : Bool
  readOk : Bool
  missionText : String
  writeOk : Bool
  updateExit : Int
  startOk : Bool
  cfgLoadOk : Bool
  rotEnabled : Bool
  missionPath : String
  season : String
  badPct : Int
  today : Int × Int × Int
  roll : Nat
  badPool : Option (List String)
  goodPool : Option (List String)
  pickIdx : Nat
  readTemplateOk : Bool

/-- `update_miz_start_time(miz_path, seconds_to_add)`: the time-persistence
workflow.  Mirrors the source's control flow: archive existence check, stop
server, extract, read, parse, rewrite, write, repack, restart; every failure
notifies and aborts, with no rollback and no restart on failure paths. -/
def update_miz_start_time (w : World) (d : Int) : Bool × List Ev :=
  if w.mizExists = false then (false, [Ev.notifyError])
  else
    match kill_dcs_server_if_running w.procs w.killOk with
    | (false, t1) => (false, t1)
    | (true, t1) =>
      if w.extractExit ≠ 0 then
        (false, t1 ++ [Ev.sevenZipExtract, Ev.notifyError, Ev.notifyError])
      else if w.missionAppears = false then
        (false, t1 ++ [Ev.sevenZipExtract, Ev.notifyError])
      else if w.readOk = false then
        (false, t1 ++ [Ev.sevenZipExtract, Ev.readMission, Ev.notifyError])
      else
        match parse_start_time w.missionText with
        | none => (false, t1 ++ [Ev.sevenZipExtract, Ev.readMission, Ev.notifyError])
        | some cur =>
          let newText := replace_start_time w.missionText (compute_new_start_time cur d)
          if w.writeOk = false then
            (false, t1 ++ [Ev.sevenZipExtract, Ev.readMission,
              Ev.writeMission newText, Ev.notifyError])
          else if w.updateExit ≠ 0 then
            (false, t1 ++ [Ev.sevenZipExtract, Ev.readMission,
              Ev.writeMission newText, Ev.sevenZipUpdate, Ev.notifyError, Ev.notifyError])
          else if w.startOk = false then
            (false, t1 ++ [Ev.sevenZipExtract, Ev.readMission,
              Ev.writeMission newText, Ev.sevenZipUpdate, Ev.notifyError])
          else
            (true, t1 ++ [Ev.sevenZipExtract, Ev.readMission,
              Ev.writeMission newText, Ev.sevenZipUpdate, Ev.spawnServer, Ev.notifyInfo])

/-- `rotate_weather_in_miz()`: the weather-rotation workflow.  Mirrors the
source: config load and truthiness check, the enabled flag (disabled is a
successful no-op), mission path presence, archive existence, then stop
server, extract, read, date-block update, template pick, weather-block
replace, write, repack, restart. -/
def rotate_weather_in_miz (w : World) : Bool × List Ev :=
  if w.cfgLoadOk = false then (false, [Ev.notifyError])
  else if w.rotEnabled = false then (true, [])
  else if w.missionPath = "" then (false, [Ev.notifyError])
  else if w.mizExists = false then (false, [Ev.notifyError])
  else
    match kill_dcs_server_if_running w.procs w.killOk with
    | (false, t1) => (false, t1)
    | (true, t1) =>
      if w.extractExit ≠ 0 then
        (false, t1 ++ [Ev.sevenZipExtract, Ev.notifyError, Ev.notifyError])
      else if w.missionAppears = false then
        (false, t1 ++ [Ev.sevenZipExtract, Ev.notifyError])
      else if w.readOk = false then
        (false, t1 ++ [Ev.sevenZipExtract, Ev.readMission, Ev.notifyError])
      else
        match update_date_block w.missionText w.season w.today with
        | none => (false, t1 ++ [Ev.sevenZipExtract, Ev.readMission, Ev.notifyError])
        | some text2 =>
          match pick_weather_template w.badPct w.roll w.badPool w.goodPool
              w.pickIdx w.readTemplateOk with
          | none => (false, t1 ++ [Ev.sevenZipExtract, Ev.readMission, Ev.notifyError])
          | some tmpl =>
            match replace_weather_block text2 tmpl with
            | none => (false, t1 ++ [Ev.sevenZipExtract, Ev.readMission, Ev.notifyError])
            | some text3 =>
              if w.writeOk = false then
                (false, t1 ++ [Ev.sevenZipExtract, Ev.readMission,
                  Ev.writeMission text3, Ev.notifyError])
              else if w.updateExit ≠ 0 then
                (false, t1 ++ [Ev.sevenZipExtract, Ev.readMission,
                  Ev.writeMission text3, Ev.sevenZipUpdate, Ev.notifyError, Ev.notifyError])
              else if w.startOk = false then
                (false, t1 ++ [Ev.sevenZipExtract, Ev.readMission,
                  Ev.writeMission text3, Ev.sevenZipUpdate, Ev.notifyError])
              else
                (true, t1 ++ [Ev.sevenZipExtract, Ev.readMission,
                  Ev.writeMission text3, Ev.sevenZipUpdate, Ev.spawnServer, Ev.notifyInfo])

/-- The stop step never reads the descriptor nor spawns the server. -/
lemma kill_trace_no_mission_events (procs : List (Nat × String)) (k : Bool) :
    Ev.readMission ∉ (kill_dcs_server_if_running procs k).2 ∧
    Ev.spawnServer ∉ (kill_dcs_server_if_running procs k).2 := by
  unfold kill_dcs_server_if_running
  cases hf : procs.find? (fun p => strContains p.2 "DCS_server.exe") with
  | none => simp
  | some pr =>
    obtain ⟨pid, name⟩ := pr
    cases k <;> simp

/-! ### Claims C7–C9 -/

/-- C7: when the archive path does not exist, both workflows fail immediately
with just an error notification; the server process is neither scanned,
stopped, nor started (the trace has no process events at all). -/
theorem missing_archive_fails_fast (w : World) (d : Int)
    (hmiz : w.mizExists = false) (hcfg : w.cfgLoadOk = true)
    (hrot : w.rotEnabled = true) (hpath : w.missionPath ≠ "") :
    update_miz_start_time w d = (false, [Ev.notifyError]) ∧
    rotate_weather_in_miz w = (false, [Ev.notifyError]) ∧
    (∀ e ∈ (update_miz_start_time w d).2, isProcessEv e = false) ∧
    (∀ e ∈ (rotate_weather_in_miz w).2, isProcessEv e = false) := by
  have h1 : update_miz_start_time w d = (false, [Ev.notifyError]) := by
    unfold update_miz_start_time
    rw [hmiz]
    simp
  have h2 : rotate_weather_in_miz w = (false, [Ev.notifyError]) := by
    unfold rotate_weather_in_miz
    rw [hcfg, hrot, hmiz]
    simp [hpath]
  refine ⟨h1, h2, ?_, ?_⟩
  · rw [h1]
    intro e he
    simp at he
    subst he
    rfl
  · rw [h2]
    intro e he
    simp at he
    subst he
    rfl

/-- A concrete environment: archive present, server running, extraction
exits with code 1 (used for C8). -/
def extractFailWorld : World :=
  World.mk true [(1, "DCS_server.exe")] true 1 true true "" true 0 true
    true true "m.miz" "winter" 0 (2025, 1, 1) 50
    (some ["b.config"]) (some ["g.config"]) 0 true

/-- A concrete environment: valid enabled configuration but the archive is
missing (used as witness input for C7). -/
def noArchiveWorld : World :=
  World.mk false [(1, "DCS_server.exe")] true 0 true true "" true 0 true
    true true "m.miz" "winter" 0 (2025, 1, 1) 50
    (some ["b.config"]) (some ["g.config"]) 0 true

/-- Witness for `missing_archive_fails_fast` at a concrete environment. -/
theorem missing_archive_fails_fast_witness :
    update_miz_start_time noArchiveWorld 10 = (false, [Ev.notifyError]) ∧
    rotate_weather_in_miz noArchiveWorld = (false, [Ev.notifyError]) :=
  ⟨(missing_archive_fails_fast noArchiveWorld 10 rfl rfl rfl (by decide)).1,
   (missing_archive_fails_fast noArchiveWorld 10 rfl rfl rfl (by decide)).2.1⟩

/-- C8 counterexample: with the server running and extraction exiting 1, the
run stops the server (`killProc 1` is in the trace) and aborts before any
descriptor read, but the server is NOT restarted on this failure path — there
is no `spawnServer` event — contradicting "a run that stopped the server
still restarts it on this failure path". -/
theorem extract_fail_no_restart_counterexample :
    (update_miz_start_time extractFailWorld 0).1 = false ∧
    Ev.killProc 1 ∈ (update_miz_start_time extractFailWorld 0).2 ∧
    Ev.spawnServer ∉ (update_miz_start_time extractFailWorld 0).2 ∧
    Ev.readMission ∉ (update_miz_start_time extractFailWorld 0).2 := by
  decide

/-- C8 amended: when the archive tool's extraction step exits nonzero, both
workflows abort before any descriptor read, and the server is never restarted
on this failure path (whether or not it was stopped in this run). -/
theorem extract_fail_aborts (w : World) (d : Int) (hex : w.extractExit ≠ 0) :
    (update_miz_start_time w d).1 = false ∧
    Ev.readMission ∉ (update_miz_start_time w d).2 ∧
    Ev.spawnServer ∉ (update_miz_start_time w d).2 ∧
    (w.cfgLoadOk = true → w.rotEnabled = true → w.missionPath ≠ "" →
      (rotate_weather_in_miz w).1 = false) ∧
    Ev.readMission ∉ (rotate_weather_in_miz w).2 ∧
    Ev.spawnServer ∉ (rotate_weather_in_miz w).2 := by
  obtain ⟨hkr, hks⟩ := kill_trace_no_mission_events w.procs w.killOk
  have hup : (update_miz_start_time w d).1 = false ∧
      Ev.readMission ∉ (update_miz_start_time w d).2 ∧
      Ev.spawnServer ∉ (update_miz_start_time w d).2 := by
    unfold update_miz_start_time
    by_cases hm : w.mizExists = false
    · simp [hm]
    · rw [if_neg hm]
      rcases hk : kill_dcs_server_if_running w.procs w.killOk with ⟨ok1, t1⟩
      rw [hk] at hkr hks
      cases ok1
      · simpa using ⟨hkr, hks⟩
      · simp [hex, hkr, hks]
  have hro : (w.cfgLoadOk = true → w.rotEnabled = true → w.missionPath ≠ "" →
      (rotate_weather_in_miz w).1 = false) ∧
      Ev.readMission ∉ (rotate_weather_in_miz w).2 ∧
      Ev.spawnServer ∉ (rotate_weather_in_miz w).2 := by
    unfold rotate_weather_in_miz
    by_cases hc : w.cfgLoadOk = false
    · simp [hc]
    · rw [if_neg hc]
      by_cases he : w.rotEnabled = false
      · simp [he]
      · rw [if_neg he]
        by_cases hp : w.missionPath = ""
        · simp [hp]
        · rw [if_neg hp]
          by_cases hm : w.mizExists = false
          · simp [hm]
          · rw [if_neg hm]
            rcases hk : kill_dcs_server_if_running w.procs w.killOk with ⟨ok1, t1⟩
            rw [hk] at hkr hks
            cases ok1
            · simpa using ⟨hkr, hks⟩
            · simp [hex, hkr, hks]
  exact ⟨hup.1, hup.2.1, hup.2.2, hro.1, hro.2.1, hro.2.2⟩

/-- Witness for `extract_fail_aborts` at the concrete environment. -/
theorem extract_fail_aborts_witness :
    (update_miz_start_time extractFailWorld 0).1 = false ∧
    (rotate_weather_in_miz extractFailWorld).1 = false :=
  ⟨(extract_fail_aborts extractFailWorld 0 (by decide)).1,
   (extract_fail_aborts extractFailWorld 0 (by decide)).2.2.2.1 rfl rfl (by decide)⟩

/-- C9 counterexample: the discovery test is Python's substring `in`, not an
exact name match — a process named `xDCS_server.exe7` is killed even though
its name differs from `DCS_server.exe`. -/
theorem stop_by_name_counterexample :
    kill_dcs_server_if_running [(7, "xDCS_server.exe7")] true
      = (true, [Ev.procScan, Ev.notifyInfo, Ev.killProc 7, Ev.sleep15]) ∧
    "xDCS_server.exe7" ≠ "DCS_server.exe" := by
  constructor
  · decide
  · decide

/-- C9 amended: stopIfRunning scans all processes and stops the first whose
name CONTAINS the server executable name as a substring (notify, kill, 15 s
wait); when no process name contains it, the operation succeeds immediately
with no kill, no 15-second wait and no stop notification. -/
theorem stop_if_running (procs : List (Nat × String)) (killOk : Bool)
    (pid : Nat) (name : String) :
    ((∀ p ∈ procs, strContains p.2 "DCS_server.exe" = false) →
      kill_dcs_server_if_running procs killOk = (true, [Ev.procScan])) ∧
    (procs.find? (fun p => strContains p.2 "DCS_server.exe") = some (pid, name) →
      strContains name "DCS_server.exe" = true ∧
      (killOk = true →
        kill_dcs_server_if_running procs killOk
          = (true, [Ev.procScan, Ev.notifyInfo, Ev.killProc pid, Ev.sleep15])) ∧
      (killOk = false →
        kill_dcs_server_if_running procs killOk
          = (false, [Ev.procScan, Ev.notifyInfo, Ev.killProc pid, Ev.notifyError]))) := by
  constructor
  · intro h
    have hf : procs.find? (fun p => strContains p.2 "DCS_server.exe") = none := by
      rw [List.find?_eq_none]
      intro p hp
      simp [h p hp]
    unfold kill_dcs_server_if_running
    rw [hf]
  · intro h
    refine ⟨by simpa using List.find?_some h, ?_, ?_⟩
    · intro hk
      unfold kill_dcs_server_if_running
      rw [h]
      simp [hk]
    · intro hk
      unfold kill_dcs_server_if_running
      rw [h]
      simp [hk]

/-- Witness for `stop_if_running`: no matching process means an immediate,
event-free success (only the scan itself). -/
theorem stop_if_running_witness :
    kill_dcs_server_if_running [(3, "explorer.exe")] true = (true, [Ev.procScan]) :=
  (stop_if_running [(3, "explorer.exe")] true 0 "").1 (by decide)

/-! ## `app/time_reader.py` — time conversion and the extraction result -/

/-- `_convert_hms_to_seconds(hms)`: split on `":"`, unpack exactly three
components, convert each with `int(...)` and combine; any failure
(`except Exception`) yields 0. -/
def convert_hms_to_seconds (hms : String) : Int :=
  match splitOnCharL ':' hms.data with
  | [h, m, s] =>
    match pyIntL h, pyIntL m, pyIntL s with
    | some hv, some mv, some sv => hv * 3600 + mv * 60 + sv
    | _, _, _ => 0
  | _ => 0

/-- Whether a time text parses as `H:M:S` in the sense of the source's
conversion: exactly three colon-separated components, each accepted by
Python's `int`. -/
def parsesHMS (x : String) : Bool :=
  match splitOnCharL ':' x.data with
  | [h, m, s] => (pyIntL h).isSome && (pyIntL m).isSome && (pyIntL s).isSome
  | _ => false

/-- Python `p.replace("\\", "/")` — every backslash becomes a slash. -/
def replaceBackslashes (cs : List Char) : List Char :=
  cs.map (fun c => if c = '\\' then '/' else c)

/-- Python `p.replace("//", "/")` — left-to-right, non-overlapping. -/
def collapseDoubleSlash : List Char → List Char
  | '/' :: '/' :: rest => '/' :: collapseDoubleSlash rest
  | c :: rest => c :: collapseDoubleSlash rest
  | [] => []

/-- `_normalize_path(p)`: `p.replace("\\","/").replace("//","/").lower().strip()`
(ASCII lower-casing). -/
def normalize_path (p : String) : String :=
  String.mk (trimL ((collapseDoubleSlash (replaceBackslashes p.data)).map Char.toLower))

/-- The tri-state result of `extract_time_and_mission`: `failure` is
`(False, None, None)`; `success t s` is `(True, t, s)`. -/
inductive ExtractResult where
  | failure : ExtractResult
  | success : String → Int → ExtractResult
  deriving DecidableEq, Repr

/-- `extract_time_and_mission(expected_miz_path)`: the pure decision core of
the scraper.  `webOk = false` models any raised WebDriver exception
(timeouts, missing elements); `serverText`, `loadedMiz` and `timeText` are
the stripped texts scraped from the page.  The success branch always carries
`convert_hms_to_seconds timeText` — an integer, never absent. -/
def extract_time_and_mission (webOk : Bool) (serverText loadedMiz expected timeText : String) :
    ExtractResult :=
  if webOk = false then .failure
  else if strContains (String.mk (serverText.data.map Char.toLower)) "server detected" = false then
    .failure
  else if normalize_path loadedMiz ≠ normalize_path expected then .failure
  else .success timeText (convert_hms_to_seconds timeText)

/-! ### Claim C10 -/

/-- C10 counterexample: the conversion is total and never absent, but it is
not always non-negative — `"0:0:-1"` parses (Python `int` accepts a sign) and
converts to `-1`, and the extractor can surface it in a matched result. -/
theorem time_seconds_nonneg_counterexample :
    convert_hms_to_seconds "0:0:-1" = -1 ∧
    ((-1 : Int) < 0) ∧
    extract_time_and_mission true "Server detected" "C:\\m.miz" "c:/m.miz" "0:0:-1"
      = ExtractResult.success "0:0:-1" (-1) := by
  refine ⟨by decide, by decide, by decide⟩

/-- C10 amended: a matched (success) result always carries a seconds value —
an integer, never absent — equal to the conversion of the scraped time text;
the conversion returns 0 for every time text that does not parse as `H:M:S`;
but the value may be negative when a parsed component is negative. -/
theorem time_seconds_total (webOk : Bool) (serverText loadedMiz expected timeText : String)
    (t : String) (s : Int) :
    (parsesHMS timeText = false → convert_hms_to_seconds timeText = 0) ∧
    (extract_time_and_mission webOk serverText loadedMiz expected timeText
        = ExtractResult.success t s →
      t = timeText ∧ s = convert_hms_to_seconds t) := by
  constructor
  · intro h
    unfold convert_hms_to_seconds
    unfold parsesHMS at h
    cases hs : splitOnCharL ':' timeText.data with
    | nil => rfl
    | cons a l =>
      rw [hs] at h
      cases l with
      | nil => rfl
      | cons b l2 =>
        cases l2 with
        | nil => rfl
        | cons c l3 =>
          cases l3 with
          | nil =>
            cases hpa : pyIntL a with
            | none => simp [hpa]
            | some va =>
              cases hpb : pyIntL b with
              | none => simp [hpa, hpb]
              | some vb =>
                cases hpc : pyIntL c with
                | none => simp [hpa, hpb, hpc]
                | some vc =>
                  simp [hpa, hpb, hpc] at h
          | cons d l4 => rfl
  · intro h
    unfold extract_time_and_mission at h
    by_cases h1 : webOk = false
    · rw [if_pos h1] at h; cases h
    · rw [if_neg h1] at h
      by_cases h2 : strContains (String.mk (serverText.data.map Char.toLower))
          "server detected" = false
      · rw [if_pos h2] at h; cases h
      · rw [if_neg h2] at h
        by_cases h3 : normalize_path loadedMiz ≠ normalize_path expected
        · rw [if_pos h3] at h; cases h
        · rw [if_neg h3] at h
          cases h
          exact ⟨rfl, rfl⟩

/-- Witness for `time_seconds_total`: an unparsable text converts to 0, and a
successful extraction (with the mission-path normalization matching
`C:\m.miz` against `c:/m.miz`) carries the converted seconds. -/
theorem time_seconds_total_witness :
    convert_hms_to_seconds "garbage" = 0 ∧
    ("1:2:3" = "1:2:3" ∧ (3723 : Int) = convert_hms_to_seconds "1:2:3") :=
  ⟨(time_seconds_total true "s" "l" "e" "garbage" "" 0).1 (by decide),
   (time_seconds_total true "Server detected" "C:\\m.miz" "c:/m.miz" "1:2:3"
      "1:2:3" 3723).2 (by decide)⟩

end DCS
